import Mathlib

/-!
Shallow embedding of `torch/distributed/_tensor/op_schema.py`: the
sharding-propagation schema model (OpSchema hash/equality, args_spec,
gen_fake_args, _inplace_rewrap_schema_suggestion, OpStrategy).

Modelling conventions:
* `DTensorSpec` is the external placement-spec value type; its mesh and
  per-mesh-dimension placements are opaque comparable data (`Nat` ids and a
  `List Nat`), its `tensor_meta` is shape/stride/dtype, and `num_shards` is
  the externally derived shard count implied by the spec.  Two specs are
  equal iff all fields compare equal (structural equality).
* Python argument values are the tagged type `ArgVal`: a placement spec, an
  opaque non-tensor scalar (modelled by `Int`), or a list whose elements are
  specs, `None`, or scalars (`ListElem`).  Python `==`/`!=` on these values
  is structural (decidable) equality.
* `hash(...)` of a tuple is modelled by the tuple itself (`hashKey`): Python
  hashes the tuple of selected values, and equal tuples hash equal, so the
  hash of an `OpSchema` is modelled by the exact composite value that the
  source passes to `hash`.  The source's `tuple(e) if isinstance(e, list)
  else e` conversion is the identity here, lists and tuples both being Lean
  lists.
* `kwargs_schema` (a Python dict) is an association list; `dict.get k None`
  is `kwargsGet`, returning `Option ArgVal` (with `none` for Python `None`).
* Fallible operations (`assert`, `IndexError`) return `Except`/`Option`.
-/

/-- Tensor metadata carried by a placement spec: shape, stride, dtype
(dtype is an opaque comparable id). -/
structure TensorMeta where
  shape : List Nat
  stride : List Nat
  dtype : Nat
deriving DecidableEq

/-- External placement-spec value type (`DTensorSpec` from
`placement_types.py`, consumed opaquely by `op_schema.py`): an opaque mesh
reference, opaque per-mesh-dimension placements, optional tensor metadata,
and the externally derived shard count implied by the placements. -/
structure DTensorSpec where
  mesh : Nat
  placements : List Nat
  tensor_meta : Option TensorMeta
  num_shards : Nat
deriving DecidableEq

/-- An element of a Python list appearing inside `args_schema`: a placement
spec, Python `None`, or an opaque scalar. -/
inductive ListElem where
  | spec (d : DTensorSpec)
  | pynone
  | scalar (v : Int)
deriving DecidableEq

/-- One positional (or keyword) argument value in an `OpSchema`: a placement
spec, an opaque non-tensor scalar, or a Python list of `ListElem`. -/
inductive ArgVal where
  | spec (d : DTensorSpec)
  | scalar (v : Int)
  | list (xs : List ListElem)
deriving DecidableEq

/-- `isinstance(arg, DTensorSpec)` on an argument value. -/
def ArgVal.isSpec : ArgVal → Bool
  | .spec _ => true
  | _ => false

/-- Body of `OpSchema.arg_type_tensor_or_tensor_list_like` on one argument
value: a spec, or a list all of whose elements are specs or `None`. -/
def ArgVal.tensorOrTensorListLike : ArgVal → Bool
  | .spec _ => true
  | .list xs => xs.all fun e => match e with
      | .spec _ => true
      | .pynone => true
      | .scalar _ => false
  | .scalar _ => false

/-- `RuntimeSchemaInfo`: which positional/keyword arguments participate in
cache identity. -/
structure RuntimeSchemaInfo where
  static_argnum : Nat := 100
  static_kwargkey : Option (List String) := none
  needs_pytree : Bool := true
deriving DecidableEq

/-- Python `kwargs.get(k, None)`: first binding of `k` in the association
list, `none` when absent. -/
def kwargsGet (kw : List (String × ArgVal)) (k : String) : Option ArgVal :=
  (kw.find? fun p => p.1 = k).map (·.2)

/-- `OpSchema`: operator identity (opaque `OpOverload`, a `Nat` id), the
positional argument list with tensor arguments replaced by their specs, the
keyword arguments, and the optional per-operator-kind schema info. -/
structure OpSchema where
  op : Nat
  args_schema : List ArgVal
  kwargs_schema : List (String × ArgVal)
  schema_info : Option RuntimeSchemaInfo := none
deriving DecidableEq

/-- The `static_argnum` both `__hash__` and `__eq__` compute: the schema's
`schema_info.static_argnum`, defaulting to `len(args_schema)` when
`schema_info` is absent. -/
def OpSchema.static_argnum (s : OpSchema) : Nat :=
  match s.schema_info with
  | none => s.args_schema.length
  | some si => si.static_argnum

/-- The `static_kwargkey` both `__hash__` and `__eq__` compute; `none` when
`schema_info` is absent. -/
def OpSchema.static_kwargkey (s : OpSchema) : Option (List String) :=
  match s.schema_info with
  | none => none
  | some si => si.static_kwargkey

/-- The placement spec held by an argument value, when it is one. -/
def ArgVal.specOf : ArgVal → Option DTensorSpec
  | .spec d => some d
  | _ => none

/-- `OpSchema.args_spec`: the positional arguments that are placement specs,
in order (`tuple(item for item in self.args_schema if isinstance(item,
DTensorSpec))`). -/
def OpSchema.args_spec (s : OpSchema) : List DTensorSpec :=
  s.args_schema.filterMap ArgVal.specOf

/-- `OpSchema.arg_type_tensor_or_tensor_list_like(arg_idx)`; the source only
calls it with an in-range index, out-of-range yields `false` here. -/
def OpSchema.arg_type_tensor_or_tensor_list_like (s : OpSchema) (arg_idx : Nat) : Bool :=
  match s.args_schema.get? arg_idx with
  | some a => a.tensorOrTensorListLike
  | none => false

/-- The filtered argument tuple `args_to_hash` of `OpSchema.__hash__`:
`tuple(tuple(e) if isinstance(e, list) else e for i, e in
enumerate(self.args_schema) if self.arg_type_tensor_or_tensor_list_like(i)
or i >= static_argnum)`, written as an indexed recursion (the list→tuple
conversion is the identity in this model). -/
def argsToHashAux (sn : Nat) : Nat → List ArgVal → List ArgVal
  | _, [] => []
  | i, a :: rest =>
    if a.tensorOrTensorListLike || sn ≤ i then a :: argsToHashAux sn (i + 1) rest
    else argsToHashAux sn (i + 1) rest

/-- `args_to_hash` of `OpSchema.__hash__` for a whole schema. -/
def OpSchema.args_to_hash (s : OpSchema) : List ArgVal :=
  argsToHashAux s.static_argnum 0 s.args_schema

/-- The composite value `OpSchema.__hash__` passes to Python's `hash`:
`(self.op, args_to_hash, kwargs_to_hash)` when `static_kwargkey is not
None`, else `(self.op, args_to_hash)` (the two tuple shapes are kept apart
by the `Option`). -/
def OpSchema.hashKey (s : OpSchema) : Nat × List ArgVal × Option (List (Option ArgVal)) :=
  match s.static_kwargkey with
  | some ks => (s.op, s.args_to_hash, some (ks.map fun k => kwargsGet s.kwargs_schema k))
  | none => (s.op, s.args_to_hash, none)

/-- The positional-argument loop of `OpSchema.__eq__`: for each index `i`,
return `False` when the left argument is a spec unequal to the right one,
or when `i >= static_argnum` and the two arguments are unequal; otherwise
continue. -/
def eqArgsLoop (sn : Nat) : Nat → List ArgVal → List ArgVal → Bool
  | _, [], _ => true
  | _, _ :: _, [] => true
  | i, sa :: sas, oa :: oas =>
    if sa.isSpec && decide (sa ≠ oa) then false
    else if decide (sn ≤ i) && decide (sa ≠ oa) then false
    else eqArgsLoop sn (i + 1) sas oas

/-- The keyword-argument check of `OpSchema.__eq__`: under Python truthiness
`if static_kwargkey:` the loop runs only for a non-empty key list, comparing
`self.kwargs_schema.get(key, None)` against the other schema's (an empty or
absent key list checks nothing, and `all` over `[]` is `true`, so the
truthiness test needs no separate branch). -/
def eqKwargsCheck (a b : OpSchema) : Bool :=
  match a.static_kwargkey with
  | some ks => ks.all fun k => decide (kwargsGet a.kwargs_schema k = kwargsGet b.kwargs_schema k)
  | none => true

/-- `OpSchema.__eq__` restricted to two `OpSchema` values (the body after
the `isinstance` check): early `False` on differing op identity or differing
positional-argument count, then the positional loop and the keyword check,
both driven by `self`'s `schema_info`. -/
def OpSchema.eqSchema (a b : OpSchema) : Bool :=
  if a.op ≠ b.op then false
  else if a.args_schema.length ≠ b.args_schema.length then false
  else eqArgsLoop a.static_argnum 0 a.args_schema b.args_schema && eqKwargsCheck a b

/-- A Python object handed to `OpSchema.__eq__`: either an `OpSchema` or any
other object (opaque). -/
inductive PyObject where
  | schema (s : OpSchema)
  | opaque_obj (n : Nat)
deriving DecidableEq

/-- `OpSchema.__eq__(self, other: object)` in full: `False` whenever `other`
is not an `OpSchema` (the `isinstance` early return), else the field
comparison. -/
def OpSchema.eqObj (a : OpSchema) : PyObject → Bool
  | .schema b => a.eqSchema b
  | .opaque_obj _ => false

/-- The value `torch.empty_strided(shape, stride, dtype=dtype)` produces: an
uninitialized tensor-like value identified by its shape, stride, dtype. -/
structure FakeTensor where
  shape : List Nat
  stride : List Nat
  dtype : Nat
deriving DecidableEq

/-- `_rebuild_tensor_from_dtensor_meta`: asserts `arg.tensor_meta is not
None` (an `AssertionError` aborts the call, modelled by `Except.error`) and
builds an empty strided tensor from the metadata. -/
def _rebuild_tensor_from_dtensor_meta (arg : DTensorSpec) : Except String FakeTensor :=
  match arg.tensor_meta with
  | none => .error "DTensorSpec does not contain tensor_meta."
  | some m => .ok ⟨m.shape, m.stride, m.dtype⟩

/-- An element of a list after `gen_fake_args`: spec leaves became fake
tensors, `None` and scalar leaves are untouched. -/
inductive FakeListElem where
  | tensor (t : FakeTensor)
  | pynone
  | scalar (v : Int)
deriving DecidableEq

/-- An argument after `gen_fake_args`: every spec leaf became a fake tensor,
everything else is untouched. -/
inductive FakeVal where
  | tensor (t : FakeTensor)
  | scalar (v : Int)
  | list (xs : List FakeListElem)
deriving DecidableEq

/-- `tree_map_only(DTensorSpec, _rebuild_tensor_from_dtensor_meta, ·)` on
one list element (lists are pytree nodes, so spec leaves inside them are
mapped too; `None` and scalars are non-`DTensorSpec` leaves, left as-is). -/
def fakeListElem : ListElem → Except String FakeListElem
  | .spec d => FakeListElem.tensor <$> _rebuild_tensor_from_dtensor_meta d
  | .pynone => .ok .pynone
  | .scalar v => .ok (.scalar v)

/-- Sequential fallible map over a list: the first `error` aborts the whole
traversal (Python's `AssertionError` propagates out of `tree_map_only`). -/
def exceptMapList (f : α → Except String β) : List α → Except String (List β)
  | [] => .ok []
  | x :: xs =>
    match f x with
    | .error m => .error m
    | .ok y =>
      match exceptMapList f xs with
      | .error m => .error m
      | .ok ys => .ok (y :: ys)

/-- `tree_map_only(DTensorSpec, _rebuild_tensor_from_dtensor_meta, ·)` on
one positional argument. -/
def fakeVal : ArgVal → Except String FakeVal
  | .spec d => FakeVal.tensor <$> _rebuild_tensor_from_dtensor_meta d
  | .scalar v => .ok (.scalar v)
  | .list xs => FakeVal.list <$> exceptMapList fakeListElem xs

/-- `OpSchema.gen_fake_args`: map `_rebuild_tensor_from_dtensor_meta` over
every `DTensorSpec` leaf of `args_schema`; the first failing assertion
aborts the whole call. -/
def OpSchema.gen_fake_args (s : OpSchema) : Except String (List FakeVal) :=
  exceptMapList fakeVal s.args_schema

/-- `OpSchema.gen_fake_kwargs`: the same mapping over the keyword-argument
values. -/
def OpSchema.gen_fake_kwargs (s : OpSchema) : Except String (List (String × FakeVal)) :=
  exceptMapList (fun p => (fun v => (p.1, v)) <$> fakeVal p.2) s.kwargs_schema

/-- The rebuild loop of `_inplace_rewrap_schema_suggestion`: walk the
origin's `args_schema`, replacing each spec position with the next entry of
the suggestion's `args_spec` and copying every other argument; running out
of suggestion specs is Python's `IndexError` (`none`). -/
def rewrapArgs : List DTensorSpec → List ArgVal → Option (List ArgVal)
  | _, [] => some []
  | specs, .spec _ :: rest =>
    match specs with
    | [] => none
    | d :: ds => (rewrapArgs ds rest).map fun out => ArgVal.spec d :: out
  | specs, a :: rest => (rewrapArgs specs rest).map fun out => a :: out

/-- `OpSchema._inplace_rewrap_schema_suggestion(self, origin_schema)`: the
source mutates `self` in place; here the updated `self` is returned
(`none` on the `IndexError` abort).  `args_schema` is rebuilt from
`origin_schema` with `self.args_spec` at the spec positions, and
`kwargs_schema` is taken from `origin_schema` wholesale. -/
def OpSchema._inplace_rewrap_schema_suggestion (self origin_schema : OpSchema) :
    Option OpSchema :=
  (rewrapArgs self.args_spec origin_schema.args_schema).map fun newArgs =>
    { self with args_schema := newArgs, kwargs_schema := origin_schema.kwargs_schema }

/-- `PlacementStrategy`: an output spec and optionally input specs. -/
structure PlacementStrategy where
  output_spec : DTensorSpec
  input_specs : Option (List DTensorSpec) := none
deriving DecidableEq

/-- `OpStrategy`: a list of placement strategies associated with the op. -/
structure OpStrategy where
  strategies : List PlacementStrategy
deriving DecidableEq

/-- Python `max` over a non-empty list (`max([])` raises, modelled by
`none`). -/
def pyMax : List Nat → Option Nat
  | [] => none
  | x :: xs => some (xs.foldl Nat.max x)

/-- `OpStrategy.max_num_shards`:
`max([strategy.output_spec.num_shards for strategy in self.strategies])`. -/
def OpStrategy.max_num_shards (s : OpStrategy) : Option Nat :=
  pyMax (s.strategies.map fun strategy => strategy.output_spec.num_shards)

/-- The shape/stride/dtype contract of `_rebuild_tensor_from_dtensor_meta`:
the produced tensor-like value matches the spec's tensor metadata exactly. -/
def metaMatches (d : DTensorSpec) (t : FakeTensor) : Prop :=
  ∃ m, d.tensor_meta = some m ∧ t.shape = m.shape ∧ t.stride = m.stride ∧ t.dtype = m.dtype

/-- How one list element relates to its `gen_fake_args` image: spec leaves
become metadata-matching tensors, `None` and scalars are unchanged. -/
def elemFakes : ListElem → FakeListElem → Prop
  | .spec d, .tensor t => metaMatches d t
  | .pynone, .pynone => True
  | .scalar v, .scalar w => v = w
  | _, _ => False

/-- How one positional argument relates to its `gen_fake_args` image. -/
def valFakes : ArgVal → FakeVal → Prop
  | .spec d, .tensor t => metaMatches d t
  | .scalar v, .scalar w => v = w
  | .list xs, .list ys => List.Forall₂ elemFakes xs ys
  | _, _ => False

/-- Whether a list element, if a spec leaf, carries tensor metadata. -/
def ListElem.hasMeta : ListElem → Bool
  | .spec d => d.tensor_meta.isSome
  | _ => true

/-- Whether every spec leaf of an argument carries tensor metadata. -/
def ArgVal.hasMeta : ArgVal → Bool
  | .spec d => d.tensor_meta.isSome
  | .scalar _ => true
  | .list xs => xs.all ListElem.hasMeta

/-! ### Helper lemmas -/

theorem isSpec_false_of_not_tll {a : ArgVal} (h : a.tensorOrTensorListLike = false) :
    a.isSpec = false := by
  cases a <;> simp_all [ArgVal.tensorOrTensorListLike, ArgVal.isSpec]

theorem eqArgsLoop_refl (sn : Nat) : ∀ i xs, eqArgsLoop sn i xs xs = true := by
  intro i xs
  induction xs generalizing i with
  | nil => rfl
  | cons a rest ih => simp [eqArgsLoop, ih]

theorem eqArgsLoop_symm (sn : Nat) {xs ys : List ArgVal}
    (h : List.Forall₂ (fun x y => x.isSpec = y.isSpec) xs ys) :
    ∀ i, eqArgsLoop sn i xs ys = eqArgsLoop sn i ys xs := by
  induction h with
  | nil => intro i; rfl
  | @cons x y l1 l2 hxy htail ih =>
    intro i
    have hne : decide (x ≠ y) = decide (y ≠ x) := by
      rw [decide_eq_decide]; exact ne_comm
    simp only [eqArgsLoop]
    rw [hxy, hne, ih]

theorem eqKwargsCheck_symm {a b : OpSchema} (h : a.static_kwargkey = b.static_kwargkey) :
    eqKwargsCheck a b = eqKwargsCheck b a := by
  have hdec : ∀ k, decide (kwargsGet a.kwargs_schema k = kwargsGet b.kwargs_schema k)
      = decide (kwargsGet b.kwargs_schema k = kwargsGet a.kwargs_schema k) := by
    intro k; rw [decide_eq_decide]; exact eq_comm
  unfold eqKwargsCheck
  rw [← h]
  cases a.static_kwargkey with
  | none => rfl
  | some ks => simp only [hdec]

theorem eqKwargsCheck_of_kwargs_eq {a b : OpSchema}
    (h : a.kwargs_schema = b.kwargs_schema) : eqKwargsCheck a b = true := by
  unfold eqKwargsCheck
  cases a.static_kwargkey with
  | none => rfl
  | some ks => simp [h, List.all_eq_true]

theorem pyMax_cons_spec (x : Nat) (xs : List Nat) :
    ∃ m, pyMax (x :: xs) = some m ∧ (∀ y ∈ x :: xs, y ≤ m) ∧ m ∈ x :: xs := by
  induction xs generalizing x with
  | nil => exact ⟨x, rfl, by simp, by simp⟩
  | cons y ys ih =>
    obtain ⟨m, hm, hub, hmem⟩ := ih (Nat.max x y)
    refine ⟨m, ?_, ?_, ?_⟩
    · simpa [pyMax] using hm
    · have hxm : x ≤ m := le_trans (Nat.le_max_left x y) (hub _ (List.mem_cons_self _ _))
      have hym : y ≤ m := le_trans (Nat.le_max_right x y) (hub _ (List.mem_cons_self _ _))
      intro z hz
      rcases List.mem_cons.mp hz with rfl | hz2
      · exact hxm
      rcases List.mem_cons.mp hz2 with rfl | hz3
      · exact hym
      · exact hub _ (List.mem_cons_of_mem _ hz3)
    · rcases List.mem_cons.mp hmem with hx | htl
      · have hmax : Nat.max x y = x ∨ Nat.max x y = y := by
          rcases Nat.le_total x y with h | h
          · exact Or.inr (Nat.max_eq_right h)
          · exact Or.inl (Nat.max_eq_left h)
        have hxy : m = x ∨ m = y := by rcases hmax with h | h <;> rw [hx, h] <;> simp
        rcases hxy with rfl | rfl
        · exact List.mem_cons_self _ _
        · exact List.mem_cons_of_mem _ (List.mem_cons_self _ _)
      · exact List.mem_cons_of_mem _ (List.mem_cons_of_mem _ htl)

theorem filterMap_specOf_map_spec (l : List ArgVal) :
    (l.filterMap ArgVal.specOf).map ArgVal.spec = l.filter fun a => a.isSpec := by
  induction l with
  | nil => rfl
  | cons a rest ih =>
    cases a <;>
      simp [List.filterMap_cons, List.filter_cons, ArgVal.specOf, ArgVal.isSpec, ih]

theorem eqArgsLoop_append_skip (sn : Nat) (post : List ArgVal) (x y : ArgVal)
    (hx : x.isSpec = false) :
    ∀ (pre : List ArgVal) (i : Nat), i + pre.length < sn →
      eqArgsLoop sn i (pre ++ x :: post) (pre ++ y :: post) = true := by
  intro pre
  induction pre with
  | nil =>
    intro i hi
    have hlt : ¬ sn ≤ i := Nat.not_le.mpr (by simpa using hi)
    simp only [List.nil_append, eqArgsLoop, hx, Bool.false_and, if_false,
      decide_eq_false hlt, Bool.false_and]
    exact eqArgsLoop_refl sn (i + 1) post
  | cons p ps ih =>
    intro i hi
    have hp : decide (p ≠ p) = false := by simp
    simp only [List.cons_append, eqArgsLoop, hp, Bool.and_false, if_false]
    exact ih (i + 1) (by simp at hi ⊢; omega)

theorem argsToHashAux_append_skip (sn : Nat) (post : List ArgVal) (x y : ArgVal)
    (hx : x.tensorOrTensorListLike = false) (hy : y.tensorOrTensorListLike = false) :
    ∀ (pre : List ArgVal) (i : Nat), i + pre.length < sn →
      argsToHashAux sn i (pre ++ x :: post) = argsToHashAux sn i (pre ++ y :: post) := by
  intro pre
  induction pre with
  | nil =>
    intro i hi
    have hlt : ¬ sn ≤ i := Nat.not_le.mpr (by simpa using hi)
    simp only [List.nil_append, argsToHashAux, hx, hy, decide_eq_false hlt,
      Bool.false_or]
    simp
  | cons p ps ih =>
    intro i hi
    simp only [List.cons_append, argsToHashAux, List.append_eq]
    rw [ih (i + 1) (by simp at hi ⊢; omega)]

theorem exceptMapList_ok_of_forall {α β : Type} {f : α → Except String β}
    {R : α → β → Prop} :
    ∀ {l : List α}, (∀ x ∈ l, ∃ y, f x = .ok y ∧ R x y) →
      ∃ out, exceptMapList f l = .ok out ∧ List.Forall₂ R l out := by
  intro l
  induction l with
  | nil => exact fun _ => ⟨[], rfl, List.Forall₂.nil⟩
  | cons a rest ih =>
    intro h
    obtain ⟨y, hy, hR⟩ := h a (List.mem_cons_self _ _)
    obtain ⟨out, hout, hF⟩ := ih fun x hx => h x (List.mem_cons_of_mem _ hx)
    exact ⟨y :: out, by simp [exceptMapList, hy, hout], List.Forall₂.cons hR hF⟩

theorem exceptMapList_error_of_exists {α β : Type} {f : α → Except String β} :
    ∀ {l : List α}, (∃ x ∈ l, ∃ m, f x = .error m) →
      ∃ m, exceptMapList f l = .error m := by
  intro l
  induction l with
  | nil => rintro ⟨x, hx, -⟩; exact absurd hx (List.not_mem_nil x)
  | cons a rest ih =>
    rintro ⟨x, hx, m, hm⟩
    rcases List.mem_cons.mp hx with rfl | hx2
    · exact ⟨m, by simp [exceptMapList, hm]⟩
    · cases hfa : f a with
      | error m2 => exact ⟨m2, by simp [exceptMapList, hfa]⟩
      | ok y =>
        obtain ⟨m3, hm3⟩ := ih ⟨x, hx2, m, hm⟩
        exact ⟨m3, by simp [exceptMapList, hfa, hm3]⟩

theorem fakeListElem_ok_of_hasMeta {e : ListElem} (h : e.hasMeta = true) :
    ∃ fe, fakeListElem e = .ok fe ∧ elemFakes e fe := by
  cases e with
  | spec d =>
    rw [ListElem.hasMeta, Option.isSome_iff_exists] at h
    obtain ⟨m, hm⟩ := h
    exact ⟨.tensor ⟨m.shape, m.stride, m.dtype⟩,
      by simp [fakeListElem, _rebuild_tensor_from_dtensor_meta, hm, Except.map],
      ⟨m, hm, rfl, rfl, rfl⟩⟩
  | pynone => exact ⟨.pynone, rfl, trivial⟩
  | scalar v => exact ⟨.scalar v, rfl, rfl⟩

theorem fakeListElem_error_of_noMeta {e : ListElem} (h : e.hasMeta = false) :
    ∃ m, fakeListElem e = .error m := by
  cases e with
  | spec d =>
    have hm : d.tensor_meta = none := by
      cases hm : d.tensor_meta with
      | none => rfl
      | some m => rw [ListElem.hasMeta, hm] at h; simp at h
    exact ⟨"DTensorSpec does not contain tensor_meta.",
      by simp [fakeListElem, _rebuild_tensor_from_dtensor_meta, hm, Except.map]⟩
  | pynone => simp [ListElem.hasMeta] at h
  | scalar v => simp [ListElem.hasMeta] at h

theorem fakeVal_ok_of_hasMeta {a : ArgVal} (h : a.hasMeta = true) :
    ∃ fa, fakeVal a = .ok fa ∧ valFakes a fa := by
  cases a with
  | spec d =>
    rw [ArgVal.hasMeta, Option.isSome_iff_exists] at h
    obtain ⟨m, hm⟩ := h
    exact ⟨.tensor ⟨m.shape, m.stride, m.dtype⟩,
      by simp [fakeVal, _rebuild_tensor_from_dtensor_meta, hm, Except.map],
      ⟨m, hm, rfl, rfl, rfl⟩⟩
  | scalar v => exact ⟨.scalar v, rfl, rfl⟩
  | list xs =>
    have hall : ∀ e ∈ xs, e.hasMeta = true :=
      List.all_eq_true.mp (by rw [ArgVal.hasMeta] at h; exact h)
    obtain ⟨out, hout, hF⟩ :=
      exceptMapList_ok_of_forall fun e he => fakeListElem_ok_of_hasMeta (hall e he)
    exact ⟨.list out, by simp [fakeVal, hout, Except.map], hF⟩

theorem fakeVal_error_of_noMeta {a : ArgVal} (h : a.hasMeta = false) :
    ∃ m, fakeVal a = .error m := by
  cases a with
  | spec d =>
    have hm : d.tensor_meta = none := by
      cases hm : d.tensor_meta with
      | none => rfl
      | some m => rw [ArgVal.hasMeta, hm] at h; simp at h
    exact ⟨"DTensorSpec does not contain tensor_meta.",
      by simp [fakeVal, _rebuild_tensor_from_dtensor_meta, hm, Except.map]⟩
  | scalar v => simp [ArgVal.hasMeta] at h
  | list xs =>
    have hex : ∃ e ∈ xs, e.hasMeta = false := by
      rw [ArgVal.hasMeta] at h
      by_contra hc
      push_neg at hc
      have : xs.all ListElem.hasMeta = true :=
        List.all_eq_true.mpr fun e he => by
          cases he2 : e.hasMeta with
          | true => rfl
          | false => exact absurd he2 (hc e he)
      rw [this] at h; exact Bool.true_eq_false.mp h
    obtain ⟨e, he, hf⟩ := hex
    obtain ⟨m, hm⟩ := fakeListElem_error_of_noMeta hf
    obtain ⟨m2, hm2⟩ := exceptMapList_error_of_exists ⟨e, he, m, hm⟩
    exact ⟨m2, by simp [fakeVal, hm2, Except.map]⟩

theorem rewrapArgs_correct :
    ∀ (args : List ArgVal) (specs : List DTensorSpec),
      specs.length = (args.filterMap ArgVal.specOf).length →
      ∃ out, rewrapArgs specs args = some out
        ∧ out.length = args.length
        ∧ out.filterMap ArgVal.specOf = specs
        ∧ (∀ i a, args.get? i = some a → a.isSpec = false → out.get? i = some a)
        ∧ (∀ i a, args.get? i = some a → a.isSpec = true →
              ∃ d, out.get? i = some (ArgVal.spec d)) := by
  intro args
  induction args with
  | nil =>
    intro specs h
    have hnil : specs = [] := List.length_eq_zero.mp (by simpa using h)
    subst hnil
    exact ⟨[], rfl, rfl, rfl, fun i a ha => by simp at ha, fun i a ha => by simp at ha⟩
  | cons a rest ih =>
    intro specs h
    cases a with
    | spec d0 =>
      cases specs with
      | nil => simp [List.filterMap_cons, ArgVal.specOf] at h
      | cons s0 ss =>
        obtain ⟨out, hout, hlen, hfm, hns, hsp⟩ :=
          ih ss (by simpa [List.filterMap_cons, ArgVal.specOf] using h)
        refine ⟨ArgVal.spec s0 :: out, ?_, ?_, ?_, ?_, ?_⟩
        · simp [rewrapArgs, hout]
        · simp [hlen]
        · simp [List.filterMap_cons, ArgVal.specOf, hfm]
        · intro i b hb hbns
          cases i with
          | zero =>
            simp at hb
            rw [← hb] at hbns
            simp [ArgVal.isSpec] at hbns
          | succ n =>
            simp only [List.get?] at hb ⊢
            exact hns n b hb hbns
        · intro i b hb hbsp
          cases i with
          | zero => exact ⟨s0, rfl⟩
          | succ n =>
            simp only [List.get?] at hb ⊢
            exact hsp n b hb hbsp
    | scalar v =>
      obtain ⟨out, hout, hlen, hfm, hns, hsp⟩ :=
        ih specs (by simpa [List.filterMap_cons, ArgVal.specOf] using h)
      refine ⟨ArgVal.scalar v :: out, ?_, ?_, ?_, ?_, ?_⟩
      · simp [rewrapArgs, hout]
      · simp [hlen]
      · simp [List.filterMap_cons, ArgVal.specOf, hfm]
      · intro i b hb hbns
        cases i with
        | zero => simp at hb ⊢; exact hb
        | succ n =>
          simp only [List.get?] at hb ⊢
          exact hns n b hb hbns
      · intro i b hb hbsp
        cases i with
        | zero =>
          simp at hb
          rw [← hb] at hbsp
          simp [ArgVal.isSpec] at hbsp
        | succ n =>
          simp only [List.get?] at hb ⊢
          exact hsp n b hb hbsp
    | list xs =>
      obtain ⟨out, hout, hlen, hfm, hns, hsp⟩ :=
        ih specs (by simpa [List.filterMap_cons, ArgVal.specOf] using h)
      refine ⟨ArgVal.list xs :: out, ?_, ?_, ?_, ?_, ?_⟩
      · simp [rewrapArgs, hout]
      · simp [hlen]
      · simp [List.filterMap_cons, ArgVal.specOf, hfm]
      · intro i b hb hbns
        cases i with
        | zero => simp at hb ⊢; exact hb
        | succ n =>
          simp only [List.get?] at hb ⊢
          exact hns n b hb hbns
      · intro i b hb hbsp
        cases i with
        | zero =>
          simp at hb
          rw [← hb] at hbsp
          simp [ArgVal.isSpec] at hbsp
        | succ n =>
          simp only [List.get?] at hb ⊢
          exact hsp n b hb hbsp

/-! ### Claim theorems -/

/-- Claim C1, evaluated at a failing input.  With `schema_info` absent, two
schemas that differ only in a positional argument that is a list of placement
specs satisfy `OpSchema.__eq__` — the loop skips the list because it is not a
`DTensorSpec` and its index is below the default `static_argnum` — yet the
composite values the two `OpSchema.__hash__` calls pass to `hash` differ,
because the hash does include such list arguments via
`arg_type_tensor_or_tensor_list_like`.  So `a == b` holds while the hashes
disagree, refuting hash/equality consistency on the code as written. -/
theorem opschema_eq_without_hash_eq :
    OpSchema.eqSchema
        ⟨7, [ArgVal.list [ListElem.spec ⟨0, [0], none, 1⟩]], [], none⟩
        ⟨7, [ArgVal.list [ListElem.spec ⟨0, [1], none, 1⟩]], [], none⟩ = true
    ∧ OpSchema.hashKey ⟨7, [ArgVal.list [ListElem.spec ⟨0, [0], none, 1⟩]], [], none⟩
        ≠ OpSchema.hashKey ⟨7, [ArgVal.list [ListElem.spec ⟨0, [1], none, 1⟩]], [], none⟩ := by
  decide

/-- Claim C2, counterexample: `OpSchema.__eq__` is not symmetric.  With
`schema_info` absent, a schema whose only argument is a scalar compares equal
to one whose only argument is a placement spec (the scalar left argument is
skipped), while the reverse comparison takes the spec branch and returns
`False`. -/
theorem opschema_eq_symmetry_counterexample :
    OpSchema.eqSchema ⟨7, [ArgVal.scalar 5], [], none⟩
        ⟨7, [ArgVal.spec ⟨0, [0], none, 1⟩], [], none⟩ = true
    ∧ OpSchema.eqSchema ⟨7, [ArgVal.spec ⟨0, [0], none, 1⟩], [], none⟩
        ⟨7, [ArgVal.scalar 5], [], none⟩ = false := by
  decide

/-- Claim C2, amended: `OpSchema` equality is symmetric for every pair with
identical `schema_info` whose positional-argument lists hold placement specs
at the same positions, and — for arbitrary pairs — both directions return
unequal immediately when the operator identities differ or when the
positional-argument lists have different lengths. -/
theorem opschema_eq_symmetric :
    (∀ a b : OpSchema, a.schema_info = b.schema_info →
        List.Forall₂ (fun x y => x.isSpec = y.isSpec) a.args_schema b.args_schema →
        a.eqSchema b = b.eqSchema a)
  ∧ (∀ a b : OpSchema, a.op ≠ b.op → a.eqSchema b = false ∧ b.eqSchema a = false)
  ∧ (∀ a b : OpSchema, a.args_schema.length ≠ b.args_schema.length →
        a.eqSchema b = false ∧ b.eqSchema a = false) := by
  refine ⟨?_, ?_, ?_⟩
  · intro a b hsi hkind
    have hlen : a.args_schema.length = b.args_schema.length := hkind.length_eq
    have hsa : a.static_argnum = b.static_argnum := by
      cases h2 : b.schema_info with
      | none => simp [OpSchema.static_argnum, hsi, h2, hlen]
      | some si => simp [OpSchema.static_argnum, hsi, h2]
    have hsk : a.static_kwargkey = b.static_kwargkey := by
      cases h2 : b.schema_info with
      | none => simp [OpSchema.static_kwargkey, hsi, h2]
      | some si => simp [OpSchema.static_kwargkey, hsi, h2]
    by_cases hop : a.op = b.op
    · have e1 : a.eqSchema b
          = (eqArgsLoop a.static_argnum 0 a.args_schema b.args_schema && eqKwargsCheck a b) := by
        unfold OpSchema.eqSchema
        rw [if_neg (fun hc => hc hop), if_neg (fun hc => hc hlen)]
      have e2 : b.eqSchema a
          = (eqArgsLoop b.static_argnum 0 b.args_schema a.args_schema && eqKwargsCheck b a) := by
        unfold OpSchema.eqSchema
        rw [if_neg (fun hc => hc hop.symm), if_neg (fun hc => hc hlen.symm)]
      rw [e1, e2, hsa, eqArgsLoop_symm b.static_argnum hkind 0, eqKwargsCheck_symm hsk]
    · have f1 : a.eqSchema b = false := by
        unfold OpSchema.eqSchema; rw [if_pos hop]
      have f2 : b.eqSchema a = false := by
        unfold OpSchema.eqSchema; rw [if_pos (fun h => hop h.symm)]
      rw [f1, f2]
  · intro a b hop
    constructor
    · unfold OpSchema.eqSchema; rw [if_pos hop]
    · unfold OpSchema.eqSchema; rw [if_pos (fun h => hop h.symm)]
  · intro a b hlen
    constructor
    · unfold OpSchema.eqSchema
      by_cases hop : a.op = b.op
      · rw [if_neg (fun hc => hc hop), if_pos hlen]
      · rw [if_pos hop]
    · unfold OpSchema.eqSchema
      by_cases hop : b.op = a.op
      · rw [if_neg (fun hc => hc hop), if_pos (fun h => hlen h.symm)]
      · rw [if_pos hop]

/-- Witness for the amended C2 symmetry, at two concrete schemas with equal
`schema_info` and spec/scalar arguments at matching positions. -/
theorem opschema_eq_symmetric_witness :
    OpSchema.eqSchema ⟨3, [ArgVal.spec ⟨0, [0], none, 1⟩, ArgVal.scalar 2], [], none⟩
        ⟨3, [ArgVal.spec ⟨0, [0], none, 1⟩, ArgVal.scalar 9], [], none⟩
      = OpSchema.eqSchema ⟨3, [ArgVal.spec ⟨0, [0], none, 1⟩, ArgVal.scalar 9], [], none⟩
        ⟨3, [ArgVal.spec ⟨0, [0], none, 1⟩, ArgVal.scalar 2], [], none⟩ :=
  opschema_eq_symmetric.1 _ _ rfl
    (List.Forall₂.cons rfl (List.Forall₂.cons rfl List.Forall₂.nil))

/-- Claim C3, evaluated at a failing input.  Two schemas with the same
operator, the same `schema_info` (`static_argnum = 100`), and identical
argument lists except for one list-of-placement-specs argument at index 0 (an
index below `static_argnum`): the claim says they compare unequal, but
`OpSchema.__eq__` returns `True` — its loop only special-cases `DTensorSpec`
arguments and skips lists — while `OpSchema.__hash__` does treat the list as
identity-relevant, so the hashed composites differ. -/
theorem opschema_eq_ignores_spec_list_arg :
    OpSchema.eqSchema
        ⟨11, [ArgVal.list [ListElem.spec ⟨1, [2], none, 2⟩]], [], some ⟨100, none, true⟩⟩
        ⟨11, [ArgVal.list [ListElem.spec ⟨1, [3], none, 2⟩]], [], some ⟨100, none, true⟩⟩ = true
    ∧ OpSchema.hashKey
        ⟨11, [ArgVal.list [ListElem.spec ⟨1, [2], none, 2⟩]], [], some ⟨100, none, true⟩⟩
      ≠ OpSchema.hashKey
        ⟨11, [ArgVal.list [ListElem.spec ⟨1, [3], none, 2⟩]], [], some ⟨100, none, true⟩⟩ := by
  decide

/-- Claim C4, counterexample.  Take two schemas with the same operator, the
same `schema_info` (`static_argnum = 100`), equal placement-spec arguments at
every position (there are none at top level), equal arguments at every index
at or above `static_argnum` (there are none), differing only in a
non-placement-spec positional argument at index 0 < 100 — but that argument
is a list of placement specs.  `__eq__` returns `True` as the claim says, yet
the hashed composites differ, because `__hash__` includes
tensor-list-like arguments at any index; so the claim's "hash equal" part
fails for such arguments. -/
theorem opschema_static_skip_hash_counterexample :
    OpSchema.eqSchema
        ⟨13, [ArgVal.list [ListElem.spec ⟨2, [0], none, 1⟩, ListElem.pynone]], [],
          some ⟨100, none, true⟩⟩
        ⟨13, [ArgVal.list [ListElem.spec ⟨2, [4], none, 1⟩, ListElem.pynone]], [],
          some ⟨100, none, true⟩⟩ = true
    ∧ OpSchema.hashKey
        ⟨13, [ArgVal.list [ListElem.spec ⟨2, [0], none, 1⟩, ListElem.pynone]], [],
          some ⟨100, none, true⟩⟩
      ≠ OpSchema.hashKey
        ⟨13, [ArgVal.list [ListElem.spec ⟨2, [4], none, 1⟩, ListElem.pynone]], [],
          some ⟨100, none, true⟩⟩ := by
  decide

/-- Claim C4, amended: for every two schemas with the same operator identity,
the same `schema_info`, the same keyword arguments, and identical positional
argument lists except at one index below `static_argnum` holding, on both
sides, an argument that is neither a placement spec nor a list of placement
specs/`None` (not tensor-list-like), `OpSchema.__eq__` returns `True` and
the two `OpSchema.__hash__` composites are equal. -/
theorem opschema_static_argnum_skip (a b : OpSchema) (pre post : List ArgVal)
    (x y : ArgVal)
    (hop : a.op = b.op) (hsi : a.schema_info = b.schema_info)
    (hkw : a.kwargs_schema = b.kwargs_schema)
    (ha : a.args_schema = pre ++ x :: post) (hb : b.args_schema = pre ++ y :: post)
    (hx : x.tensorOrTensorListLike = false) (hy : y.tensorOrTensorListLike = false)
    (hlt : pre.length < a.static_argnum) (hxy : x ≠ y) :
    a.eqSchema b = true ∧ a.hashKey = b.hashKey := by
  have hlen : a.args_schema.length = b.args_schema.length := by rw [ha, hb]; simp
  have hsa : a.static_argnum = b.static_argnum := by
    cases h2 : b.schema_info with
    | none => simp [OpSchema.static_argnum, hsi, h2, hlen]
    | some si => simp [OpSchema.static_argnum, hsi, h2]
  have hsk : a.static_kwargkey = b.static_kwargkey := by
    cases h2 : b.schema_info with
    | none => simp [OpSchema.static_kwargkey, hsi, h2]
    | some si => simp [OpSchema.static_kwargkey, hsi, h2]
  constructor
  · unfold OpSchema.eqSchema
    rw [if_neg (fun hc => hc hop), if_neg (fun hc => hc hlen), ha, hb,
      eqArgsLoop_append_skip a.static_argnum post x y (isSpec_false_of_not_tll hx) pre 0
        (by simpa using hlt),
      eqKwargsCheck_of_kwargs_eq hkw]
    rfl
  · have hath : a.args_to_hash = b.args_to_hash := by
      unfold OpSchema.args_to_hash
      rw [ha, hb, hsa]
      exact argsToHashAux_append_skip b.static_argnum post x y hx hy pre 0
        (by rw [← hsa]; simpa using hlt)
    simp only [OpSchema.hashKey, hsk, hath, hkw, hop]

/-- Witness for the amended C4 at concrete schemas: the differing scalar at
index 0 < `static_argnum` = 100 affects neither equality nor the hash. -/
theorem opschema_static_argnum_skip_witness :
    OpSchema.eqSchema
        ⟨5, [ArgVal.scalar 1, ArgVal.spec ⟨0, [0], none, 1⟩], [], some ⟨100, none, true⟩⟩
        ⟨5, [ArgVal.scalar 2, ArgVal.spec ⟨0, [0], none, 1⟩], [], some ⟨100, none, true⟩⟩ = true
    ∧ OpSchema.hashKey
        ⟨5, [ArgVal.scalar 1, ArgVal.spec ⟨0, [0], none, 1⟩], [], some ⟨100, none, true⟩⟩
      = OpSchema.hashKey
        ⟨5, [ArgVal.scalar 2, ArgVal.spec ⟨0, [0], none, 1⟩], [], some ⟨100, none, true⟩⟩ :=
  opschema_static_argnum_skip _ _ [] [ArgVal.spec ⟨0, [0], none, 1⟩]
    (ArgVal.scalar 1) (ArgVal.scalar 2) rfl rfl rfl rfl rfl rfl rfl (by decide) (by decide)

/-- Claim C5: for two schemas identical except in keyword arguments, with the
difference confined to the single key `k`: if `k` is listed in
`static_kwargkey` and the two `get(k, None)` lookups differ, `__eq__`
returns `False`; if `k` is not listed (which covers an absent
`static_kwargkey`), they compare equal and their hash composites are equal —
keyword arguments then never participate in identity, and listed keys absent
from `kwargs_schema` are looked up with a `None` default. -/
theorem opschema_kwarg_sensitivity (a b : OpSchema) (k : String)
    (hop : a.op = b.op) (hargs : a.args_schema = b.args_schema)
    (hsi : a.schema_info = b.schema_info)
    (hother : ∀ k2, k2 ≠ k → kwargsGet a.kwargs_schema k2 = kwargsGet b.kwargs_schema k2) :
    (∀ ks, a.static_kwargkey = some ks → k ∈ ks →
        kwargsGet a.kwargs_schema k ≠ kwargsGet b.kwargs_schema k →
        a.eqSchema b = false)
  ∧ ((∀ ks, a.static_kwargkey = some ks → k ∉ ks) →
        a.eqSchema b = true ∧ a.hashKey = b.hashKey) := by
  have hlen : a.args_schema.length = b.args_schema.length := by rw [hargs]
  have hsa : a.static_argnum = b.static_argnum := by
    cases h2 : b.schema_info with
    | none => simp [OpSchema.static_argnum, hsi, h2, hlen]
    | some si => simp [OpSchema.static_argnum, hsi, h2]
  have hsk : a.static_kwargkey = b.static_kwargkey := by
    cases h2 : b.schema_info with
    | none => simp [OpSchema.static_kwargkey, hsi, h2]
    | some si => simp [OpSchema.static_kwargkey, hsi, h2]
  have hloop : eqArgsLoop a.static_argnum 0 a.args_schema b.args_schema = true := by
    rw [hargs]; exact eqArgsLoop_refl _ 0 _
  have heq : a.eqSchema b = eqKwargsCheck a b := by
    unfold OpSchema.eqSchema
    rw [if_neg (fun hc => hc hop), if_neg (fun hc => hc hlen), hloop, Bool.true_and]
  constructor
  · intro ks hks hk hdiff
    rw [heq]
    unfold eqKwargsCheck
    rw [hks]
    refine Bool.eq_false_iff.mpr fun hall => ?_
    exact hdiff (of_decide_eq_true (List.all_eq_true.mp hall k hk))
  · intro hnin
    have hkwc : eqKwargsCheck a b = true := by
      unfold eqKwargsCheck
      cases hks : a.static_kwargkey with
      | none => rfl
      | some ks =>
        refine List.all_eq_true.mpr fun k2 hk2 => decide_eq_true ?_
        exact hother k2 fun hkk => hnin ks hks (hkk ▸ hk2)
    refine ⟨by rw [heq, hkwc], ?_⟩
    have hath : a.args_to_hash = b.args_to_hash := by
      unfold OpSchema.args_to_hash
      rw [hargs, hsa]
    cases hks : a.static_kwargkey with
    | none =>
      have hksb : b.static_kwargkey = none := by rw [← hsk]; exact hks
      simp [OpSchema.hashKey, hks, hksb, hath, hop]
    | some ks =>
      have hksb : b.static_kwargkey = some ks := by rw [← hsk]; exact hks
      have hmap : (ks.map fun k2 => kwargsGet a.kwargs_schema k2)
          = ks.map fun k2 => kwargsGet b.kwargs_schema k2 :=
        List.map_congr_left fun k2 hk2 => hother k2 fun hkk => hnin ks hks (hkk ▸ hk2)
      simp [OpSchema.hashKey, hks, hksb, hath, hop, hmap]

/-- Witness for C5 at concrete schemas: the two schemas differ only in the
keyword argument `dim`, which is not in `static_kwargkey = ["alpha"]`, so
they compare equal and hash equal (the listed key `alpha`, absent from both
kwargs, is looked up as `None` on both sides). -/
theorem opschema_kwarg_sensitivity_witness :
    OpSchema.eqSchema
        ⟨5, [ArgVal.spec ⟨0, [0], none, 1⟩], [("dim", ArgVal.scalar 1)],
          some ⟨100, some ["alpha"], true⟩⟩
        ⟨5, [ArgVal.spec ⟨0, [0], none, 1⟩], [("dim", ArgVal.scalar 2)],
          some ⟨100, some ["alpha"], true⟩⟩ = true
    ∧ OpSchema.hashKey
        ⟨5, [ArgVal.spec ⟨0, [0], none, 1⟩], [("dim", ArgVal.scalar 1)],
          some ⟨100, some ["alpha"], true⟩⟩
      = OpSchema.hashKey
        ⟨5, [ArgVal.spec ⟨0, [0], none, 1⟩], [("dim", ArgVal.scalar 2)],
          some ⟨100, some ["alpha"], true⟩⟩ :=
  (opschema_kwarg_sensitivity _ _ "dim" rfl rfl rfl
      (by
        intro k2 hk2
        have hne : ¬ (("dim" : String) = k2) := fun h => hk2 h.symm
        simp [kwargsGet, List.find?, hne])).2
    (by
      intro ks hks
      simp only [OpSchema.static_kwargkey, Option.some.injEq] at hks
      rw [← hks]
      decide)

/-- Claim C6: for every `OpSchema`, `args_spec` is exactly the subsequence of
`args_schema` made of its placement-spec entries, in their original relative
order (it is the filter of `args_schema` by the spec test, hence a sublist),
and contains no non-placement entry. -/
theorem opschema_args_spec_exact (s : OpSchema) :
    s.args_spec.map ArgVal.spec = s.args_schema.filter (fun a => a.isSpec)
    ∧ (s.args_spec.map ArgVal.spec).Sublist s.args_schema
    ∧ ∀ x ∈ s.args_spec.map ArgVal.spec, x.isSpec = true := by
  have h := filterMap_specOf_map_spec s.args_schema
  refine ⟨h, ?_, ?_⟩
  · have hsub : (s.args_schema.filter (fun a => a.isSpec)).Sublist s.args_schema :=
      List.filter_sublist _
    rw [OpSchema.args_spec, h]
    exact hsub
  · intro x hx
    rw [OpSchema.args_spec, h] at hx
    exact (List.mem_filter.mp hx).2

theorem exists_not_of_all_eq_false {α : Type} {p : α → Bool} {l : List α}
    (h : l.all p = false) : ∃ x ∈ l, p x = false := by
  by_contra hc
  push_neg at hc
  have hall : l.all p = true := List.all_eq_true.mpr fun x hx => by
    cases hpx : p x with
    | true => rfl
    | false => exact absurd hpx (hc x hx)
  rw [hall] at h
  exact Bool.true_eq_false.mp h

/-- Claim C7: when every placement-spec leaf of `args_schema` carries tensor
metadata, `gen_fake_args` succeeds and returns the argument list with every
spec leaf (top-level or inside a list) replaced by a tensor-like value whose
shape, stride and dtype match that spec's metadata exactly, and every
non-spec entry unchanged (`valFakes`); when some spec leaf lacks metadata,
`gen_fake_args` aborts with an assertion error instead of producing a
value. -/
theorem opschema_gen_fake_args_correct (s : OpSchema) :
    ((s.args_schema.all ArgVal.hasMeta) = true →
        ∃ out, s.gen_fake_args = .ok out ∧ List.Forall₂ valFakes s.args_schema out)
  ∧ ((s.args_schema.all ArgVal.hasMeta) = false →
        ∃ msg, s.gen_fake_args = .error msg) := by
  constructor
  · intro h
    exact exceptMapList_ok_of_forall fun x hx =>
      fakeVal_ok_of_hasMeta (List.all_eq_true.mp h x hx)
  · intro h
    obtain ⟨x, hx, hf⟩ := exists_not_of_all_eq_false h
    obtain ⟨m, hm⟩ := fakeVal_error_of_noMeta hf
    exact exceptMapList_error_of_exists ⟨x, hx, m, hm⟩

/-- Witness for C7: a schema whose spec carries shape (4,8), stride (8,1)
and dtype id 6 succeeds with metadata-matching fakes, and a schema whose
spec (inside a list) lacks metadata aborts with an error. -/
theorem opschema_gen_fake_args_witness :
    (∃ out, OpSchema.gen_fake_args
        ⟨7, [ArgVal.spec ⟨0, [0], some ⟨[4, 8], [8, 1], 6⟩, 1⟩, ArgVal.scalar 3], [], none⟩
          = .ok out
      ∧ List.Forall₂ valFakes
          [ArgVal.spec ⟨0, [0], some ⟨[4, 8], [8, 1], 6⟩, 1⟩, ArgVal.scalar 3] out)
  ∧ (∃ msg, OpSchema.gen_fake_args
        ⟨7, [ArgVal.list [ListElem.spec ⟨0, [1], none, 1⟩]], [], none⟩ = .error msg) :=
  ⟨(opschema_gen_fake_args_correct
      ⟨7, [ArgVal.spec ⟨0, [0], some ⟨[4, 8], [8, 1], 6⟩, 1⟩, ArgVal.scalar 3], [], none⟩).1
      (by decide),
   (opschema_gen_fake_args_correct
      ⟨7, [ArgVal.list [ListElem.spec ⟨0, [1], none, 1⟩]], [], none⟩).2 (by decide)⟩

/-- Claim C8: for every origin schema and every `self` whose `args_spec` has
as many entries as origin has placement-spec positions,
`_inplace_rewrap_schema_suggestion` succeeds and the updated `self` has: an
argument list of origin's length, with `self`'s prior `args_spec` placed, in
order, at exactly the positions where origin held placement specs (its
`args_spec` equals `self`'s prior one, spec positions stay spec positions,
and every non-spec position holds origin's argument unchanged), and
`kwargs_schema` taken wholesale from origin. -/
theorem opschema_inplace_rewrap_correct (self origin : OpSchema)
    (h : self.args_spec.length = origin.args_spec.length) :
    ∃ s2, OpSchema._inplace_rewrap_schema_suggestion self origin = some s2
      ∧ s2.args_schema.length = origin.args_schema.length
      ∧ s2.args_spec = self.args_spec
      ∧ (∀ i a, origin.args_schema.get? i = some a → a.isSpec = false →
            s2.args_schema.get? i = some a)
      ∧ (∀ i a, origin.args_schema.get? i = some a → a.isSpec = true →
            ∃ d, s2.args_schema.get? i = some (ArgVal.spec d))
      ∧ s2.kwargs_schema = origin.kwargs_schema := by
  obtain ⟨out, hout, hlen, hfm, hns, hsp⟩ :=
    rewrapArgs_correct origin.args_schema self.args_spec h
  refine ⟨{ self with args_schema := out, kwargs_schema := origin.kwargs_schema },
    ?_, hlen, hfm, hns, hsp, rfl⟩
  unfold OpSchema._inplace_rewrap_schema_suggestion
  rw [hout]
  rfl

/-- Witness for C8: an origin schema with two placement-spec positional
arguments surrounding one scalar, rewrapped with two new placement specs. -/
theorem opschema_inplace_rewrap_witness :
    ∃ s2, OpSchema._inplace_rewrap_schema_suggestion
        ⟨7, [ArgVal.spec ⟨3, [1], none, 2⟩, ArgVal.spec ⟨4, [2], none, 3⟩], [], none⟩
        ⟨7, [ArgVal.spec ⟨1, [0], none, 1⟩, ArgVal.scalar 3, ArgVal.spec ⟨2, [0], none, 1⟩],
          [("k", ArgVal.scalar 9)], none⟩ = some s2
      ∧ s2.args_schema.length
          = (OpSchema.args_schema
              ⟨7, [ArgVal.spec ⟨1, [0], none, 1⟩, ArgVal.scalar 3, ArgVal.spec ⟨2, [0], none, 1⟩],
                [("k", ArgVal.scalar 9)], none⟩).length
      ∧ s2.args_spec = OpSchema.args_spec
          ⟨7, [ArgVal.spec ⟨3, [1], none, 2⟩, ArgVal.spec ⟨4, [2], none, 3⟩], [], none⟩
      ∧ (∀ i a, (OpSchema.args_schema
            ⟨7, [ArgVal.spec ⟨1, [0], none, 1⟩, ArgVal.scalar 3, ArgVal.spec ⟨2, [0], none, 1⟩],
              [("k", ArgVal.scalar 9)], none⟩).get? i = some a → a.isSpec = false →
            s2.args_schema.get? i = some a)
      ∧ (∀ i a, (OpSchema.args_schema
            ⟨7, [ArgVal.spec ⟨1, [0], none, 1⟩, ArgVal.scalar 3, ArgVal.spec ⟨2, [0], none, 1⟩],
              [("k", ArgVal.scalar 9)], none⟩).get? i = some a → a.isSpec = true →
            ∃ d, s2.args_schema.get? i = some (ArgVal.spec d))
      ∧ s2.kwargs_schema = [("k", ArgVal.scalar 9)] :=
  opschema_inplace_rewrap_correct
    ⟨7, [ArgVal.spec ⟨3, [1], none, 2⟩, ArgVal.spec ⟨4, [2], none, 3⟩], [], none⟩
    ⟨7, [ArgVal.spec ⟨1, [0], none, 1⟩, ArgVal.scalar 3, ArgVal.spec ⟨2, [0], none, 1⟩],
      [("k", ArgVal.scalar 9)], none⟩ (by decide)

/-- Claim C9: for every `OpStrategy` built from a non-empty list of placement
strategies, `max_num_shards` returns the maximum, over all contained
strategies, of the shard count implied by their output specs: it is an upper
bound on every strategy's output shard count and is attained by one of
them. -/
theorem opstrategy_max_num_shards_is_max (s : OpStrategy) (h : s.strategies ≠ []) :
    ∃ m, s.max_num_shards = some m
      ∧ (∀ ps ∈ s.strategies, ps.output_spec.num_shards ≤ m)
      ∧ ∃ ps ∈ s.strategies, ps.output_spec.num_shards = m := by
  cases hs : s.strategies with
  | nil => exact absurd hs h
  | cons a rest =>
    obtain ⟨m, hm, hub, hmem⟩ :=
      pyMax_cons_spec a.output_spec.num_shards (rest.map fun st => st.output_spec.num_shards)
    refine ⟨m, ?_, ?_, ?_⟩
    · unfold OpStrategy.max_num_shards
      rw [hs, List.map_cons]
      exact hm
    · intro ps hps
      rcases List.mem_cons.mp hps with rfl | htl
      · exact hub _ (List.mem_cons_self _ _)
      · exact hub _ (List.mem_cons_of_mem _ (List.mem_map_of_mem _ htl))
    · rcases List.mem_cons.mp hmem with hm2 | hm2
      · exact ⟨a, List.mem_cons_self _ _, hm2.symm⟩
      · obtain ⟨ps, hps, he⟩ := List.mem_map.mp hm2
        exact ⟨ps, List.mem_cons_of_mem _ hps, he⟩

/-- Witness for C9: an `OpStrategy` whose three strategies have output shard
counts 1, 4 and 2 has `max_num_shards = 4`. -/
theorem opstrategy_max_num_shards_witness :
    (∃ m, OpStrategy.max_num_shards
        ⟨[⟨⟨0, [0], none, 1⟩, none⟩, ⟨⟨0, [1], none, 4⟩, none⟩, ⟨⟨0, [2], none, 2⟩, none⟩]⟩
          = some m
      ∧ (∀ ps ∈ OpStrategy.strategies
            ⟨[⟨⟨0, [0], none, 1⟩, none⟩, ⟨⟨0, [1], none, 4⟩, none⟩, ⟨⟨0, [2], none, 2⟩, none⟩]⟩,
          ps.output_spec.num_shards ≤ m)
      ∧ ∃ ps ∈ OpStrategy.strategies
            ⟨[⟨⟨0, [0], none, 1⟩, none⟩, ⟨⟨0, [1], none, 4⟩, none⟩, ⟨⟨0, [2], none, 2⟩, none⟩]⟩,
          ps.output_spec.num_shards = m)
    ∧ OpStrategy.max_num_shards
        ⟨[⟨⟨0, [0], none, 1⟩, none⟩, ⟨⟨0, [1], none, 4⟩, none⟩, ⟨⟨0, [2], none, 2⟩, none⟩]⟩
      = some 4 :=
  ⟨opstrategy_max_num_shards_is_max
      ⟨[⟨⟨0, [0], none, 1⟩, none⟩, ⟨⟨0, [1], none, 4⟩, none⟩, ⟨⟨0, [2], none, 2⟩, none⟩]⟩
      (by decide),
   by decide⟩

/-- Claim C10: `OpSchema.__eq__` applied to any value that is not an
`OpSchema` returns `False`, uniformly in the schema (no field is compared)
and without raising (the function is total). -/
theorem opschema_eq_non_opschema_false (a : OpSchema) (n : Nat) :
    a.eqObj (PyObject.opaque_obj n) = false := rfl

/-- Witness for C6 at a concrete mixed-type schema (spec, scalar,
list-of-specs, spec). -/
theorem opschema_args_spec_exact_witness :
    (OpSchema.args_spec
        ⟨9, [ArgVal.spec ⟨0, [0], none, 1⟩, ArgVal.scalar 2,
          ArgVal.list [ListElem.spec ⟨0, [1], none, 1⟩], ArgVal.spec ⟨0, [2], none, 1⟩],
          [], none⟩).map ArgVal.spec
      = (OpSchema.args_schema
        ⟨9, [ArgVal.spec ⟨0, [0], none, 1⟩, ArgVal.scalar 2,
          ArgVal.list [ListElem.spec ⟨0, [1], none, 1⟩], ArgVal.spec ⟨0, [2], none, 1⟩],
          [], none⟩).filter (fun a => a.isSpec)
    ∧ ((OpSchema.args_spec
        ⟨9, [ArgVal.spec ⟨0, [0], none, 1⟩, ArgVal.scalar 2,
          ArgVal.list [ListElem.spec ⟨0, [1], none, 1⟩], ArgVal.spec ⟨0, [2], none, 1⟩],
          [], none⟩).map ArgVal.spec).Sublist
        (OpSchema.args_schema
        ⟨9, [ArgVal.spec ⟨0, [0], none, 1⟩, ArgVal.scalar 2,
          ArgVal.list [ListElem.spec ⟨0, [1], none, 1⟩], ArgVal.spec ⟨0, [2], none, 1⟩],
          [], none⟩)
    ∧ ∀ x ∈ (OpSchema.args_spec
        ⟨9, [ArgVal.spec ⟨0, [0], none, 1⟩, ArgVal.scalar 2,
          ArgVal.list [ListElem.spec ⟨0, [1], none, 1⟩], ArgVal.spec ⟨0, [2], none, 1⟩],
          [], none⟩).map ArgVal.spec, x.isSpec = true :=
  opschema_args_spec_exact
    ⟨9, [ArgVal.spec ⟨0, [0], none, 1⟩, ArgVal.scalar 2,
      ArgVal.list [ListElem.spec ⟨0, [1], none, 1⟩], ArgVal.spec ⟨0, [2], none, 1⟩],
      [], none⟩
